import Mathlib

/-!
Verification of the audio-assembly core of the podcast generator service
(src/app.py): the MIME parameter parser `parse_audio_mime_type`
(lines 67-99), the WAV container encoder `convert_to_wav` (lines 28-65),
and the chunk-stream assembly loop of `generate_podcast_audio`
(lines 148-191).

Python strings are embedded as `List Char`; `bytes` values as `List Nat`
(each element a byte value). Python library operations used by the source
(`str.split`, `str.strip`, `str.lower`, `str.startswith`, `int`,
`struct.pack`, `mimetypes.guess_extension`) are embedded below, each
restricted to the behaviour relevant on the ASCII inputs this program
handles; functions that can raise in Python return `Option`, with `none`
standing for the raised exception.
-/

/-- Characters treated as whitespace by Python `str.strip()` (ASCII part;
the Unicode whitespace characters are irrelevant to the MIME strings this
program receives). -/
def isPySpace (c : Char) : Bool :=
  c = ' ' || c = '\t' || c = '\n' || c = '\r' || c = '\x0b' || c = '\x0c'

/-- Python `s.strip()`: remove leading and trailing whitespace. -/
def pyStrip (s : List Char) : List Char :=
  ((s.dropWhile isPySpace).reverse.dropWhile isPySpace).reverse

/-- Python `s.split(sep)` for a one-character separator and no maxsplit:
`"".split(";") = [""]`, `"a;b".split(";") = ["a","b"]`. -/
def pySplit (sep : Char) : List Char → List (List Char)
  | [] => [[]]
  | c :: rest =>
    if c = sep then [] :: pySplit sep rest
    else
      match pySplit sep rest with
      | t :: ts => (c :: t) :: ts
      | [] => [[c]]

/-- Python `s.split(sep, 1)` for a one-character separator: at most one
split, at the first occurrence of the separator. -/
def pySplitOnce (sep : Char) : List Char → List (List Char)
  | [] => [[]]
  | c :: rest =>
    if c = sep then [[], rest]
    else
      match pySplitOnce sep rest with
      | t :: ts => (c :: t) :: ts
      | [] => [[c]]

/-- Python `s.startswith(p)`: the first argument is the candidate leading
string, the second the string tested. -/
def pyStartsWith : List Char → List Char → Bool
  | [], _ => true
  | _ :: _, [] => false
  | p :: ps, c :: cs => (p = c) && pyStartsWith ps cs

/-- Value of one decimal digit character, `none` on a non-digit. -/
def digitVal (c : Char) : Option Nat :=
  if '0' ≤ c ∧ c ≤ '9' then some (c.toNat - 48) else none

/-- Accumulating evaluator for a run of decimal digit characters. -/
def digitsValGo (acc : Nat) : List Char → Option Nat
  | [] => some acc
  | c :: cs =>
    match digitVal c with
    | some d => digitsValGo (10 * acc + d) cs
    | none => none

/-- Value of a nonempty all-digit character list, `none` otherwise. -/
def digitsVal : List Char → Option Nat
  | [] => none
  | c :: cs => digitsValGo 0 (c :: cs)

/-- Python `int(s)` on a decimal string: strip whitespace, optional sign,
then a nonempty digit run; `none` models the raised `ValueError`.
(PEP 515 underscore separators and non-ASCII digits, which Python also
accepts, never occur in the MIME descriptors this program parses and are
not modelled.) -/
def pyInt (s : List Char) : Option Int :=
  match pyStrip s with
  | [] => none
  | c :: rest =>
    if c = '+' then (digitsVal rest).map (fun n => (n : Int))
    else if c = '-' then (digitsVal rest).map (fun n => -(n : Int))
    else (digitsVal (c :: rest)).map (fun n => (n : Int))

/-- Result type of `parse_audio_mime_type` (src/app.py line 99): the
dictionary with keys `bits_per_sample` and `rate`. -/
structure AudioParams where
  bits_per_sample : Int
  rate : Int
deriving DecidableEq

/-- One iteration of the `for param in parts` loop of
`parse_audio_mime_type` (src/app.py lines 84-97): strip the token, test
case-insensitively for a leading `rate=` and parse the remainder after the
first `=`; otherwise test case-sensitively for a leading `audio/L` and
parse the remainder after the first `L`. A failed `int` conversion (or a
missing index 1, both caught by the `except` clauses) leaves the current
value unchanged. -/
def parseStep (st : AudioParams) (tok : List Char) : AudioParams :=
  let param := pyStrip tok
  if pyStartsWith ("rate=".data) (param.map Char.toLower) then
    match pySplitOnce '=' param with
    | _ :: v :: _ =>
      match pyInt v with
      | some r => { st with rate := r }
      | none => st
    | _ => st
  else if pyStartsWith ("audio/L".data) param then
    match pySplitOnce 'L' param with
    | _ :: v :: _ =>
      match pyInt v with
      | some b => { st with bits_per_sample := b }
      | none => st
    | _ => st
  else st

/-- Embedding of `parse_audio_mime_type` (src/app.py lines 67-99):
split the descriptor on `;` and fold the per-token update over the
defaults `bits_per_sample = 16`, `rate = 24000`. Total by construction,
as the Python function is (every exception in its body is caught). -/
def parse_audio_mime_type (mime_type : List Char) : AudioParams :=
  (pySplit ';' mime_type).foldl parseStep ⟨16, 24000⟩

/-- Python `struct.pack` of one `<H` (little-endian unsigned 16-bit)
field: two bytes on an in-range value, `none` modelling the raised
`struct.error` on an out-of-range one. -/
def packU16 (v : Int) : Option (List Nat) :=
  if 0 ≤ v ∧ v < 65536 then some [v.toNat % 256, v.toNat / 256]
  else none

/-- Python `struct.pack` of one `<I` (little-endian unsigned 32-bit)
field: four bytes on an in-range value, `none` modelling the raised
`struct.error` on an out-of-range one. -/
def packU32 (v : Int) : Option (List Nat) :=
  if 0 ≤ v ∧ v < 4294967296 then
    some [v.toNat % 256, v.toNat / 256 % 256,
          v.toNat / 65536 % 256, v.toNat / 16777216 % 256]
  else none

/-- Body of `convert_to_wav` after the MIME parse (src/app.py lines
39-65): derive the header fields and pack
`<4sI4s4sIHHIIHH4sI`. The `4s` fields and the constant fields 16
(Subchunk1Size) and 1 (AudioFormat), whose packing cannot fail, appear as
their byte encodings; each variable field goes through `packU16`/`packU32`
and any out-of-range field makes the whole call fail, as `struct.pack`
raises. Python `//` is floor division, which on the positive divisor 8
agrees with the Euclidean `/` used here. -/
def wavEncode (audio_data : List Nat) (parameters : AudioParams) : Option (List Nat) :=
  let bits_per_sample := parameters.bits_per_sample
  let sample_rate := parameters.rate
  let num_channels : Int := 1
  let data_size : Int := (audio_data.length : Int)
  let bytes_per_sample := bits_per_sample / 8
  let block_align := num_channels * bytes_per_sample
  let byte_rate := sample_rate * block_align
  let chunk_size := 36 + data_size
  (packU32 chunk_size).bind fun b_cs =>
  (packU16 num_channels).bind fun b_ch =>
  (packU32 sample_rate).bind fun b_rate =>
  (packU32 byte_rate).bind fun b_br =>
  (packU16 block_align).bind fun b_ba =>
  (packU16 bits_per_sample).bind fun b_bits =>
  (packU32 data_size).bind fun b_ds =>
  some ([82, 73, 70, 70]                         -- b"RIFF"
        ++ b_cs                                  -- ChunkSize
        ++ [87, 65, 86, 69]                      -- b"WAVE"
        ++ [102, 109, 116, 32]                   -- b"fmt "
        ++ [16, 0, 0, 0]                         -- Subchunk1Size = 16
        ++ [1, 0]                                -- AudioFormat = 1
        ++ b_ch                                  -- NumChannels
        ++ b_rate                                -- SampleRate
        ++ b_br                                  -- ByteRate
        ++ b_ba                                  -- BlockAlign
        ++ b_bits                                -- BitsPerSample
        ++ [100, 97, 116, 97]                    -- b"data"
        ++ b_ds                                  -- Subchunk2Size
        ++ audio_data)

/-- Embedding of `convert_to_wav` (src/app.py lines 28-65): parse the
MIME descriptor, then build header plus payload. -/
def convert_to_wav (audio_data : List Nat) (mime_type : List Char) : Option (List Nat) :=
  wavEncode audio_data (parse_audio_mime_type mime_type)

/-- Extract of the CPython `mimetypes` default type-to-extension table,
restricted to audio entries (the only media the generator returns). Keys
of the real table are plain `type/subtype` strings, so raw-PCM
descriptors of the form `audio/L<bits>;rate=<r>`, which carry a
parameter, never match and resolve to no extension. -/
def types_map : List (List Char × List Char) :=
  [("audio/basic".data, ".au".data),
   ("audio/mpeg".data, ".mp3".data),
   ("audio/ogg".data, ".oga".data),
   ("audio/x-aiff".data, ".aif".data),
   ("audio/x-wav".data, ".wav".data)]

/-- Model of Python `mimetypes.guess_extension`: lowercase the type and
look it up in the table. -/
def guess_extension (mime : List Char) : Option (List Char) :=
  (types_map.find? (fun e => e.1 = mime.map Char.toLower)).map (fun e => e.2)

namespace Genai

/-- The `inline_data` of a streamed part (google.genai types): payload
bytes and MIME type. A `None`/empty payload is modelled as the empty
list, which is exactly the set of values the truthiness test on line 168
of src/app.py rejects. -/
structure InlineData where
  data : List Nat
  mime_type : List Char
deriving DecidableEq

/-- One part of a streamed content. -/
structure Part where
  inline_data : Option InlineData
deriving DecidableEq

/-- Content of a streamed candidate. -/
structure Content where
  parts : Option (List Part)
deriving DecidableEq

/-- One candidate of a streamed chunk. -/
structure Candidate where
  content : Option Content
deriving DecidableEq

/-- One chunk of the generation stream. -/
structure Chunk where
  candidates : Option (List Candidate)
deriving DecidableEq

end Genai

/-- One iteration of the chunk loop of `generate_podcast_audio`
(src/app.py lines 160-179) acting on the `audio_data` accumulator.
`none` models an uncaught exception: `candidates[0]` or `parts[0]` on an
empty (non-`None`) list raises `IndexError` (the line 160-165 guard only
tests for `None`), and `convert_to_wav` propagates `struct.error`. A
chunk with `None` candidates, content or parts, a missing `inline_data`,
or falsy `inline_data.data` is skipped, leaving the accumulator
unchanged. When the MIME type resolves to a known extension the payload
is appended verbatim; otherwise it is wrapped by `convert_to_wav` first. -/
def processChunk (acc : List Nat) (chunk : Genai.Chunk) : Option (List Nat) :=
  match chunk.candidates with
  | none => some acc
  | some [] => none
  | some (cand :: _) =>
    match cand.content with
    | none => some acc
    | some content =>
      match content.parts with
      | none => some acc
      | some [] => none
      | some (part :: _) =>
        match part.inline_data with
        | none => some acc
        | some inline_data =>
          if inline_data.data.isEmpty then some acc
          else
            match guess_extension inline_data.mime_type with
            | some _ => some (acc ++ inline_data.data)
            | none =>
              match convert_to_wav inline_data.data inline_data.mime_type with
              | some wav => some (acc ++ wav)
              | none => none

/-- The chunk loop of `generate_podcast_audio` run over a whole chunk
list, threading the accumulator; `none` as in `processChunk`. -/
def assembleGo (acc : List Nat) : List Genai.Chunk → Option (List Nat)
  | [] => some acc
  | c :: rest =>
    match processChunk acc c with
    | some acc2 => assembleGo acc2 rest
    | none => none

/-- The assembly performed by `generate_podcast_audio` over an
error-free stream: the accumulated `audio_data` after all chunks. -/
def assembleChunks (chunks : List Genai.Chunk) : Option (List Nat) :=
  assembleGo [] chunks

/-- A well-formed streamed chunk carrying one part with inline audio
`payload` declared as `mime`. -/
def mkRawChunk (payload : List Nat) (mime : List Char) : Genai.Chunk :=
  ⟨some [⟨some ⟨some [⟨some ⟨payload, mime⟩⟩]⟩⟩]⟩

/-- A streamed chunk with one candidate whose content has the given
parts list. -/
def mkPartsChunk (ps : List Genai.Part) : Genai.Chunk :=
  ⟨some [⟨some ⟨some ps⟩⟩]⟩

/-- Whether a part carries usable inline audio data (the truthiness test
on lines 167-168 of src/app.py). -/
def partHasAudio (p : Genai.Part) : Bool :=
  match p.inline_data with
  | none => false
  | some d => !d.data.isEmpty

/-- A chunk the loop skips silently: one of the `None` guards of lines
160-165 fires, or the first part has no truthy inline audio data. (A
chunk with an empty, non-`None`, candidate or part list is not skipped:
it raises `IndexError`.) -/
def isSkippable (c : Genai.Chunk) : Bool :=
  match c.candidates with
  | none => true
  | some [] => false
  | some (cand :: _) =>
    match cand.content with
    | none => true
    | some content =>
      match content.parts with
      | none => true
      | some [] => false
      | some (part :: _) => !partHasAudio part

/-- Errors that can surface from the chunk loop: an exception raised by
the upstream generation stream itself, or an exception raised inside the
loop body (`IndexError`, `struct.error`). -/
inductive StreamErr (ε : Type) where
  | upstream (e : ε)
  | chunkExn
deriving DecidableEq

/-- The chunk loop of `generate_podcast_audio` consuming a stream whose
elements are either delivered chunks or a raised upstream exception
(which aborts the iteration at that point). -/
def runChunks (acc : List Nat) : List (Except ε Genai.Chunk) → Except (StreamErr ε) (List Nat)
  | [] => .ok acc
  | .error e :: _ => .error (.upstream e)
  | .ok c :: rest =>
    match processChunk acc c with
    | some acc2 => runChunks acc2 rest
    | none => .error .chunkExn

/-- Embedding of `generate_podcast_audio` (src/app.py lines 148-191)
after the temporary output file is created: the first component is the
returned file content (`Except.ok`, the bytes written to the temp file
whose path is returned) or the propagated exception (`Except.error`);
the second component records whether the temporary output file still
exists when the function finishes. The `except` clause of lines 187-191
unlinks the file and re-raises on every exception. -/
def generate_podcast_audio (stream : List (Except ε Genai.Chunk)) :
    Except (StreamErr ε) (List Nat) × Bool :=
  match runChunks [] stream with
  | .ok data => (.ok data, true)
  | .error e => (.error e, false)

/-- The rate value a single loop iteration would parse out of a token:
`some r` when the stripped token is a case-insensitive `rate=` token with
integer remainder, `none` when the token is not a rate token or its
remainder fails integer conversion. -/
def stepRateVal (tok : List Char) : Option Int :=
  let param := pyStrip tok
  if pyStartsWith ("rate=".data) (param.map Char.toLower) then
    match pySplitOnce '=' param with
    | _ :: v :: _ => pyInt v
    | _ => none
  else none

/-- The bits-per-sample value a single loop iteration would parse out of
a token, mirroring the `elif` structure of lines 93-97. -/
def stepBitsVal (tok : List Char) : Option Int :=
  let param := pyStrip tok
  if pyStartsWith ("rate=".data) (param.map Char.toLower) then none
  else if pyStartsWith ("audio/L".data) param then
    match pySplitOnce 'L' param with
    | _ :: v :: _ => pyInt v
    | _ => none
  else none

/-- Little-endian byte encoding of a 16-bit value. -/
def le2 (n : Nat) : List Nat := [n % 256, n / 256]

/-- Little-endian byte encoding of a 32-bit value. -/
def le4 (n : Nat) : List Nat :=
  [n % 256, n / 256 % 256, n / 65536 % 256, n / 16777216 % 256]

/-- Little-endian decoding of a byte list, the inverse reading of
`le2`/`le4`. -/
def leDecode : List Nat → Nat
  | [] => 0
  | b :: rest => b + 256 * leDecode rest

theorem rate_key_chars : "rate=".data = ['r', 'a', 't', 'e', '='] := rfl

theorem audioL_key_chars : "audio/L".data = ['a', 'u', 'd', 'i', 'o', '/', 'L'] := rfl

theorem dropWhile_all_false (p : Char → Bool) (l : List Char)
    (h : ∀ c ∈ l, p c = false) : l.dropWhile p = l := by
  cases l with
  | nil => rfl
  | cons c cs => simp [List.dropWhile_cons, h c (by simp)]

theorem pyStrip_of_nonspace (l : List Char)
    (h : ∀ c ∈ l, isPySpace c = false) : pyStrip l = l := by
  have h2 : ∀ c ∈ l.reverse, isPySpace c = false :=
    fun c hc => h c (List.mem_reverse.mp hc)
  unfold pyStrip
  rw [dropWhile_all_false _ _ h, dropWhile_all_false _ _ h2, List.reverse_reverse]

theorem digitVal_isSome_bounds {c : Char} (h : (digitVal c).isSome) :
    '0' ≤ c ∧ c ≤ '9' := by
  unfold digitVal at h
  by_cases hb : '0' ≤ c ∧ c ≤ '9'
  · exact hb
  · simp [hb] at h

theorem digit_not_special {c : Char} (h : '0' ≤ c ∧ c ≤ '9') :
    c ≠ ';' ∧ c ≠ '+' ∧ c ≠ '-' ∧ c ≠ '=' ∧ c ≠ 'L' ∧ isPySpace c = false := by
  refine ⟨?_, ?_, ?_, ?_, ?_, ?_⟩
  · rintro rfl; revert h; decide
  · rintro rfl; revert h; decide
  · rintro rfl; revert h; decide
  · rintro rfl; revert h; decide
  · rintro rfl; revert h; decide
  · by_contra hs
    rw [Bool.not_eq_false] at hs
    simp only [isPySpace, Bool.or_eq_true, decide_eq_true_eq, or_assoc] at hs
    rcases hs with rfl | rfl | rfl | rfl | rfl | rfl
    all_goals exact absurd h (by decide)

theorem digitsValGo_isSome {l : List Char} :
    ∀ {acc n : Nat}, digitsValGo acc l = some n → ∀ c ∈ l, (digitVal c).isSome := by
  induction l with
  | nil => intro acc n h c hc; simp at hc
  | cons d ds ih =>
    intro acc n h c hc
    rw [digitsValGo] at h
    cases hd : digitVal d with
    | none => rw [hd] at h; exact absurd h (by simp)
    | some v =>
      rw [hd] at h
      rcases List.mem_cons.mp hc with rfl | hc2
      · simp [hd]
      · exact ih h c hc2

theorem digitsVal_isSome {l : List Char} {n : Nat} (h : digitsVal l = some n) :
    l ≠ [] ∧ ∀ c ∈ l, (digitVal c).isSome := by
  cases l with
  | nil => exact absurd h (by simp [digitsVal])
  | cons c cs =>
    refine ⟨by simp, ?_⟩
    rw [digitsVal] at h
    exact digitsValGo_isSome h

theorem pyInt_of_digitsVal {l : List Char} {n : Nat} (h : digitsVal l = some n) :
    pyInt l = some (n : Int) := by
  obtain ⟨hne, hdig⟩ := digitsVal_isSome h
  have hstrip : pyStrip l = l :=
    pyStrip_of_nonspace _ fun c hc =>
      (digit_not_special (digitVal_isSome_bounds (hdig c hc))).2.2.2.2.2
  unfold pyInt
  rw [hstrip]
  cases l with
  | nil => exact absurd rfl hne
  | cons c cs =>
    have hns := digit_not_special (digitVal_isSome_bounds (hdig c (by simp)))
    dsimp only
    rw [if_neg hns.2.1, if_neg hns.2.2.1, h]
    rfl

theorem pySplit_no_sep (sep : Char) (l : List Char) (h : ∀ c ∈ l, c ≠ sep) :
    pySplit sep l = [l] := by
  induction l with
  | nil => rfl
  | cons c cs ih =>
    have hcs := ih fun x hx => h x (by simp [hx])
    rw [pySplit, if_neg (h c (by simp)), hcs]

theorem pySplit_append (sep : Char) (xs ys : List Char)
    (h : ∀ c ∈ xs, c ≠ sep) :
    pySplit sep (xs ++ sep :: ys) = xs :: pySplit sep ys := by
  induction xs with
  | nil => simp [pySplit]
  | cons c cs ih =>
    have ih2 := ih fun x hx => h x (by simp [hx])
    rw [List.cons_append, pySplit, if_neg (h c (by simp)), ih2]

theorem pyStartsWith_cons_ne {p c : Char} (ps cs : List Char) (h : p ≠ c) :
    pyStartsWith (p :: ps) (c :: cs) = false := by
  simp [pyStartsWith, h]

theorem pyStartsWith_append_self (xs ys : List Char) :
    pyStartsWith xs (xs ++ ys) = true := by
  induction xs with
  | nil => rfl
  | cons c cs ih => simp [pyStartsWith, ih]

theorem pySplitOnce_append (sep : Char) (xs ys : List Char)
    (h : ∀ c ∈ xs, c ≠ sep) :
    pySplitOnce sep (xs ++ sep :: ys) = [xs, ys] := by
  induction xs with
  | nil => simp [pySplitOnce]
  | cons c cs ih =>
    rw [List.cons_append, pySplitOnce, if_neg (h c (by simp)),
        ih fun x hx => h x (by simp [hx])]

theorem parseStep_rate_eq (st : AudioParams) (tok : List Char) :
    (parseStep st tok).rate = (stepRateVal tok).getD st.rate := by
  simp only [parseStep, stepRateVal]
  by_cases hc : pyStartsWith ("rate=".data) ((pyStrip tok).map Char.toLower) = true
  · rw [if_pos hc, if_pos hc]
    rcases hsp : pySplitOnce '=' (pyStrip tok) with _ | ⟨t, _ | ⟨v, ts⟩⟩
    · simp
    · simp
    · cases hv : pyInt v <;> simp [hv]
  · rw [if_neg hc, if_neg hc]
    by_cases hc2 : pyStartsWith ("audio/L".data) (pyStrip tok) = true
    · rw [if_pos hc2]
      rcases hsp : pySplitOnce 'L' (pyStrip tok) with _ | ⟨t, _ | ⟨v, ts⟩⟩
      · simp
      · simp
      · cases hv : pyInt v <;> simp [hv]
    · rw [if_neg hc2]
      simp

theorem parseStep_bits_eq (st : AudioParams) (tok : List Char) :
    (parseStep st tok).bits_per_sample = (stepBitsVal tok).getD st.bits_per_sample := by
  simp only [parseStep, stepBitsVal]
  by_cases hc : pyStartsWith ("rate=".data) ((pyStrip tok).map Char.toLower) = true
  · rw [if_pos hc, if_pos hc]
    rcases hsp : pySplitOnce '=' (pyStrip tok) with _ | ⟨t, _ | ⟨v, ts⟩⟩
    · simp
    · simp
    · cases hv : pyInt v <;> simp [hv]
  · rw [if_neg hc, if_neg hc]
    by_cases hc2 : pyStartsWith ("audio/L".data) (pyStrip tok) = true
    · rw [if_pos hc2, if_pos hc2]
      rcases hsp : pySplitOnce 'L' (pyStrip tok) with _ | ⟨t, _ | ⟨v, ts⟩⟩
      · simp
      · simp
      · cases hv : pyInt v <;> simp [hv]
    · rw [if_neg hc2, if_neg hc2]
      simp

theorem foldl_parseStep_rate (toks : List (List Char)) :
    ∀ st : AudioParams, (∀ t ∈ toks, stepRateVal t = none) →
      (toks.foldl parseStep st).rate = st.rate := by
  induction toks with
  | nil => intro st _; rfl
  | cons t ts ih =>
    intro st h
    rw [List.foldl_cons, ih _ fun x hx => h x (by simp [hx]),
        parseStep_rate_eq, h t (by simp)]
    rfl

theorem foldl_parseStep_bits (toks : List (List Char)) :
    ∀ st : AudioParams, (∀ t ∈ toks, stepBitsVal t = none) →
      (toks.foldl parseStep st).bits_per_sample = st.bits_per_sample := by
  induction toks with
  | nil => intro st _; rfl
  | cons t ts ih =>
    intro st h
    rw [List.foldl_cons, ih _ fun x hx => h x (by simp [hx]),
        parseStep_bits_eq, h t (by simp)]
    rfl

theorem digitsVal_char_facts {l : List Char} {n : Nat} (h : digitsVal l = some n) :
    ∀ c ∈ l, c ≠ ';' ∧ c ≠ '+' ∧ c ≠ '-' ∧ c ≠ '=' ∧ c ≠ 'L' ∧ isPySpace c = false :=
  fun c hc =>
    digit_not_special (digitVal_isSome_bounds ((digitsVal_isSome h).2 c hc))

theorem parseStep_audioL_token (st : AudioParams) {ds : List Char} {n : Nat}
    (h : digitsVal ds = some n) :
    parseStep st ("audio/L".data ++ ds) = { st with bits_per_sample := (n : Int) } := by
  have hds := digitsVal_char_facts h
  have hstrip : pyStrip ("audio/L".data ++ ds) = "audio/L".data ++ ds := by
    apply pyStrip_of_nonspace
    intro c hc
    rw [audioL_key_chars] at hc
    rcases List.mem_append.mp hc with hc1 | hc2
    · simp only [List.mem_cons, List.not_mem_nil, or_false] at hc1
      rcases hc1 with rfl | rfl | rfl | rfl | rfl | rfl | rfl <;> rfl
    · exact (hds c hc2).2.2.2.2.2
  simp only [parseStep]
  rw [hstrip, audioL_key_chars]
  have hmap : ((['a', 'u', 'd', 'i', 'o', '/', 'L'] ++ ds).map Char.toLower)
      = Char.toLower 'a' :: (['u', 'd', 'i', 'o', '/', 'L'] ++ ds).map Char.toLower := by
    rw [List.cons_append, List.map_cons]
  rw [hmap, pyStartsWith_cons_ne _ _ (show ('r' : Char) ≠ Char.toLower 'a' by decide)]
  rw [if_neg (by simp)]
  rw [pyStartsWith_append_self, if_pos rfl]
  have hsp : pySplitOnce 'L' (['a', 'u', 'd', 'i', 'o', '/', 'L'] ++ ds)
      = [['a', 'u', 'd', 'i', 'o', '/'], ds] := by
    rw [show (['a', 'u', 'd', 'i', 'o', '/', 'L'] ++ ds : List Char)
          = ['a', 'u', 'd', 'i', 'o', '/'] ++ 'L' :: ds from rfl]
    apply pySplitOnce_append
    intro c hc
    simp only [List.mem_cons, List.not_mem_nil, or_false] at hc
    rcases hc with rfl | rfl | rfl | rfl | rfl | rfl <;> decide
  rw [hsp]
  dsimp only
  rw [pyInt_of_digitsVal h]

theorem parseStep_rate_token (st : AudioParams) {rs : List Char} {r : Nat}
    (h : digitsVal rs = some r) :
    parseStep st ("rate=".data ++ rs) = { st with rate := (r : Int) } := by
  have hrs := digitsVal_char_facts h
  have hstrip : pyStrip ("rate=".data ++ rs) = "rate=".data ++ rs := by
    apply pyStrip_of_nonspace
    intro c hc
    rw [rate_key_chars] at hc
    rcases List.mem_append.mp hc with hc1 | hc2
    · simp only [List.mem_cons, List.not_mem_nil, or_false] at hc1
      rcases hc1 with rfl | rfl | rfl | rfl | rfl <;> rfl
    · exact (hrs c hc2).2.2.2.2.2
  simp only [parseStep]
  rw [hstrip, rate_key_chars]
  have hmap : ((['r', 'a', 't', 'e', '='] ++ rs).map Char.toLower)
      = ['r', 'a', 't', 'e', '='] ++ rs.map Char.toLower := by
    simp only [List.cons_append, List.nil_append, List.map_cons]
    rw [show Char.toLower 'r' = 'r' from by decide,
        show Char.toLower 'a' = 'a' from by decide,
        show Char.toLower 't' = 't' from by decide,
        show Char.toLower 'e' = 'e' from by decide,
        show Char.toLower '=' = '=' from by decide]
  rw [hmap, pyStartsWith_append_self, if_pos rfl]
  have hsp : pySplitOnce '=' (['r', 'a', 't', 'e', '='] ++ rs)
      = [['r', 'a', 't', 'e'], rs] := by
    rw [show (['r', 'a', 't', 'e', '='] ++ rs : List Char)
          = ['r', 'a', 't', 'e'] ++ '=' :: rs from rfl]
    apply pySplitOnce_append
    intro c hc
    simp only [List.mem_cons, List.not_mem_nil, or_false] at hc
    rcases hc with rfl | rfl | rfl | rfl <;> decide
  rw [hsp]
  dsimp only
  rw [pyInt_of_digitsVal h]

/-- C2: for every well-formed descriptor of the form
`audio/L{n};rate={r}`, where the digit strings `ds` and `rs` are the
decimal literals of `n` and `r`, `parse_audio_mime_type` returns exactly
`bits_per_sample = n` and `rate = r`. -/
theorem parse_wellformed_descriptor (ds rs : List Char) (n r : Nat)
    (hd : digitsVal ds = some n) (hr : digitsVal rs = some r) :
    parse_audio_mime_type ("audio/L".data ++ ds ++ ";rate=".data ++ rs)
      = ⟨(n : Int), (r : Int)⟩ := by
  have hds := digitsVal_char_facts hd
  have hrs := digitsVal_char_facts hr
  have h1 : ∀ c ∈ "audio/L".data ++ ds, c ≠ ';' := by
    intro c hc
    rcases List.mem_append.mp hc with hc1 | hc2
    · rw [audioL_key_chars] at hc1
      simp only [List.mem_cons, List.not_mem_nil, or_false] at hc1
      rcases hc1 with rfl | rfl | rfl | rfl | rfl | rfl | rfl <;> decide
    · exact (hds c hc2).1
  have h2 : ∀ c ∈ "rate=".data ++ rs, c ≠ ';' := by
    intro c hc
    rcases List.mem_append.mp hc with hc1 | hc2
    · rw [rate_key_chars] at hc1
      simp only [List.mem_cons, List.not_mem_nil, or_false] at hc1
      rcases hc1 with rfl | rfl | rfl | rfl | rfl <;> decide
    · exact (hrs c hc2).1
  have hre : "audio/L".data ++ ds ++ ";rate=".data ++ rs
      = ("audio/L".data ++ ds) ++ ';' :: ("rate=".data ++ rs) := by
    rw [show (";rate=".data : List Char) = ';' :: "rate=".data from rfl]
    simp [List.append_assoc]
  unfold parse_audio_mime_type
  rw [hre, pySplit_append _ _ _ h1, pySplit_no_sep _ _ h2,
      List.foldl_cons, List.foldl_cons, List.foldl_nil,
      parseStep_audioL_token _ hd, parseStep_rate_token _ hr]

/-- Closed instance of `parse_wellformed_descriptor` at the descriptor
`audio/L24;rate=48000`. -/
theorem parse_wellformed_descriptor_witness :
    parse_audio_mime_type
        ("audio/L".data ++ ['2', '4'] ++ ";rate=".data ++ ['4', '8', '0', '0', '0'])
      = ⟨24, 48000⟩ :=
  parse_wellformed_descriptor ['2', '4'] ['4', '8', '0', '0', '0'] 24 48000
    (by decide) (by decide)

/-- C5: `parse_audio_mime_type` is total by construction (the embedding
is a Lean function, mirroring that every exception in the Python body is
caught), and on any descriptor none of whose tokens yields a parsable
rate (resp. bits-per-sample) value the corresponding field keeps its
default 24000 (resp. 16); the empty descriptor yields both defaults. -/
theorem parse_malformed_defaults (s : List Char) :
    ((∀ tok ∈ pySplit ';' s, stepRateVal tok = none) →
        (parse_audio_mime_type s).rate = 24000)
    ∧ ((∀ tok ∈ pySplit ';' s, stepBitsVal tok = none) →
        (parse_audio_mime_type s).bits_per_sample = 16)
    ∧ parse_audio_mime_type [] = ⟨16, 24000⟩ := by
  refine ⟨?_, ?_, by decide⟩
  · intro h; exact foldl_parseStep_rate _ _ h
  · intro h; exact foldl_parseStep_bits _ _ h

/-- Closed instance of `parse_malformed_defaults` at the malformed
descriptor `audio/Lxyz;rate=` (non-numeric bits suffix and missing rate
value): both fields fall back to their defaults. -/
theorem parse_malformed_defaults_witness :
    (parse_audio_mime_type "audio/Lxyz;rate=".data).rate = 24000
    ∧ (parse_audio_mime_type "audio/Lxyz;rate=".data).bits_per_sample = 16 :=
  ⟨(parse_malformed_defaults _).1 (by decide),
   (parse_malformed_defaults _).2.1 (by decide)⟩

/-- C7 counterexample: contrary to the claim that a negative rate token
is a parse failure falling back to the default 24000, the code parses
`rate=-100` successfully and returns rate `-100`. -/
theorem negative_rate_accepted_cex :
    (parse_audio_mime_type "audio/L16;rate=-100".data).rate = -100
    ∧ ((-100 : Int) = 24000 → False) :=
  ⟨by decide, by decide⟩

/-- C7 as amended: a `rate=` token whose value fails integer conversion
(with an optional sign) leaves the rate at its current value, but a
negative integer value is parsed successfully, so `audio/L16;rate=-100`
yields rate `-100`, not the default. -/
theorem rate_token_failure_keeps_current (st : AudioParams) (tok : List Char)
    (h : stepRateVal tok = none) :
    (parseStep st tok).rate = st.rate
    ∧ parse_audio_mime_type "audio/L16;rate=-100".data = ⟨16, -100⟩ := by
  refine ⟨?_, by decide⟩
  rw [parseStep_rate_eq, h]
  rfl

/-- Closed instance of `rate_token_failure_keeps_current` at the
non-numeric token `rate=abc`. -/
theorem rate_token_failure_keeps_current_witness :
    (parseStep ⟨16, 24000⟩ "rate=abc".data).rate = (⟨16, 24000⟩ : AudioParams).rate
    ∧ parse_audio_mime_type "audio/L16;rate=-100".data = ⟨16, -100⟩ :=
  rate_token_failure_keeps_current ⟨16, 24000⟩ "rate=abc".data (by decide)

/-- C3: the descriptor `audio/L24;rate=48000` parses to bits 24 and rate
48000, and encoding a 100-byte zero payload with those parameters
produces exactly the 44-byte header RIFF, size 136, WAVE, `fmt `,
fmt-size 16, format 1, channels 1, rate 48000, byte rate 144000, block
align 3, bits 24, `data`, data size 100 (multi-byte fields little
endian), followed by the payload. -/
theorem scenario_L24_48000 :
    parse_audio_mime_type "audio/L24;rate=48000".data = ⟨24, 48000⟩
    ∧ convert_to_wav (List.replicate 100 0) "audio/L24;rate=48000".data
      = some ([82, 73, 70, 70,
               136, 0, 0, 0,
               87, 65, 86, 69,
               102, 109, 116, 32,
               16, 0, 0, 0,
               1, 0,
               1, 0,
               128, 187, 0, 0,
               128, 50, 2, 0,
               3, 0,
               24, 0,
               100, 97, 116, 97,
               100, 0, 0, 0]
              ++ List.replicate 100 0) :=
  ⟨by decide, by decide⟩

/-- C6 counterexample: the params produced by parsing
`audio/L16;rate=4294967296` make `convert_to_wav` fail (Python raises
`struct.error` packing the 32-bit SampleRate field), so the encoder is
not failure-free on all parse-producible params. -/
theorem convert_overflow_cex :
    parse_audio_mime_type "audio/L16;rate=4294967296".data = ⟨16, 4294967296⟩
    ∧ convert_to_wav [] "audio/L16;rate=4294967296".data = none :=
  ⟨by decide, by decide⟩

/-- C4 counterexample: `bits_per_sample = 65536` with `rate = 24000` is
valid in the sense of the claim (positive, divisible by 8, every header
field within 32-bit range), yet encoding fails (Python raises
`struct.error` packing the 16-bit BitsPerSample field), so no output
with the claimed offsets exists. -/
theorem wav_encode_16bit_field_cex :
    ((0 : Int) < 65536 ∧ (65536 : Int) % 8 = 0 ∧ (0 : Int) < 24000
      ∧ (65536 : Int) < 4294967296 ∧ (24000 : Int) < 4294967296
      ∧ (24000 * (65536 / 8) : Int) < 4294967296
      ∧ (1 * (65536 / 8) : Int) < 4294967296)
    ∧ wavEncode [] ⟨65536, 24000⟩ = none :=
  ⟨by decide, by decide⟩

theorem packU16_of {v : Int} (h0 : 0 ≤ v) (h1 : v < 65536) :
    packU16 v = some (le2 v.toNat) := by
  unfold packU16 le2
  rw [if_pos ⟨h0, h1⟩]

theorem packU32_of {v : Int} (h0 : 0 ≤ v) (h1 : v < 4294967296) :
    packU32 v = some (le4 v.toNat) := by
  unfold packU32 le4
  rw [if_pos ⟨h0, h1⟩]

/-- Evaluation of `wavEncode` when every variable header field is within
the range of its `struct` format field: the exact header byte layout. -/
theorem wavEncode_eq (payload : List Nat) (b r : Int)
    (hb0 : 0 ≤ b) (hb1 : b < 65536)
    (hr0 : 0 ≤ r) (hr1 : r < 4294967296)
    (hbr : r * (b / 8) < 4294967296)
    (hlen : (payload.length : Int) + 36 < 4294967296) :
    wavEncode payload ⟨b, r⟩
      = some ([82, 73, 70, 70] ++ le4 (36 + payload.length)
              ++ [87, 65, 86, 69] ++ [102, 109, 116, 32] ++ [16, 0, 0, 0] ++ [1, 0]
              ++ le2 1 ++ le4 r.toNat ++ le4 (r * (b / 8)).toNat
              ++ le2 (b / 8).toNat ++ le2 b.toNat
              ++ [100, 97, 116, 97] ++ le4 payload.length ++ payload) := by
  have he0 : (0 : Int) ≤ b / 8 := by omega
  have he1 : b / 8 < 65536 := by omega
  have hbr0 : 0 ≤ r * (b / 8) := mul_nonneg hr0 he0
  simp only [wavEncode]
  rw [one_mul (b / 8)]
  rw [packU32_of (v := 36 + (payload.length : Int)) (by omega) (by omega),
      packU16_of (v := 1) (by omega) (by omega),
      packU32_of (v := r) hr0 hr1,
      packU32_of (v := r * (b / 8)) hbr0 hbr,
      packU16_of (v := b / 8) he0 he1,
      packU16_of (v := b) hb0 hb1,
      packU32_of (v := (payload.length : Int)) (by omega) (by omega)]
  simp only [Option.some_bind]
  rw [show ((36 : Int) + (payload.length : Int)).toNat = 36 + payload.length by omega,
      show ((payload.length : Int)).toNat = payload.length by omega, Int.toNat_one]

theorem packU16_length {v : Int} {l : List Nat} (h : packU16 v = some l) :
    l.length = 2 := by
  unfold packU16 at h
  split at h
  · cases h; rfl
  · exact absurd h (by simp)

theorem packU32_length {v : Int} {l : List Nat} (h : packU32 v = some l) :
    l.length = 4 := by
  unfold packU32 at h
  split at h
  · cases h; rfl
  · exact absurd h (by simp)

set_option maxRecDepth 4096 in
/-- Whenever `wavEncode` succeeds, its output is a 44-byte header
followed by the payload, so it has length `44 + len(payload)`. -/
theorem wavEncode_length {payload : List Nat} {p : AudioParams} {w : List Nat}
    (h : wavEncode payload p = some w) : w.length = 44 + payload.length := by
  simp only [wavEncode] at h
  simp only [Option.bind_eq_some] at h
  obtain ⟨b_cs, hcs, b_ch, hch, b_rate, hrate, b_br, hbr, b_ba, hba,
          b_bits, hbits, b_ds, hds, hw⟩ := h
  rw [Option.some.injEq] at hw
  subst hw
  simp only [List.length_append, List.length_cons, List.length_nil,
             packU32_length hcs, packU16_length hch, packU32_length hrate,
             packU32_length hbr, packU16_length hba, packU16_length hbits,
             packU32_length hds]

theorem leDecode_le4 {n : Nat} (h : n < 4294967296) : leDecode (le4 n) = n := by
  simp only [le4, leDecode]
  omega

/-- Positions of the Subchunk2Size field (offset 40) and the ChunkSize
field (offset 4) in a byte sequence with the layout of a `wavEncode`
output, for components of the appropriate lengths. -/
theorem wav_offsets (c1 c2 c3 c4 c5 c6 c7 c8 c9 c10 c11 c12 dsz payload : List Nat)
    (h1 : c1.length = 4) (h2 : c2.length = 4) (h3 : c3.length = 4)
    (h4 : c4.length = 4) (h5 : c5.length = 4) (h6 : c6.length = 2)
    (h7 : c7.length = 2) (h8 : c8.length = 4) (h9 : c9.length = 4)
    (h10 : c10.length = 2) (h11 : c11.length = 2) (h12 : c12.length = 4)
    (h13 : dsz.length = 4) :
    ((c1 ++ c2 ++ c3 ++ c4 ++ c5 ++ c6 ++ c7 ++ c8 ++ c9 ++ c10 ++ c11 ++ c12
        ++ dsz ++ payload).drop 40).take 4 = dsz
    ∧ ((c1 ++ c2 ++ c3 ++ c4 ++ c5 ++ c6 ++ c7 ++ c8 ++ c9 ++ c10 ++ c11 ++ c12
        ++ dsz ++ payload).drop 4).take 4 = c2 := by
  constructor
  · have ha : c1 ++ c2 ++ c3 ++ c4 ++ c5 ++ c6 ++ c7 ++ c8 ++ c9 ++ c10 ++ c11 ++ c12
        ++ dsz ++ payload
        = (c1 ++ c2 ++ c3 ++ c4 ++ c5 ++ c6 ++ c7 ++ c8 ++ c9 ++ c10 ++ c11 ++ c12)
          ++ (dsz ++ payload) := by
      simp [List.append_assoc]
    rw [ha,
        List.drop_left' (by
          simp only [List.length_append, h1, h2, h3, h4, h5, h6, h7, h8, h9, h10, h11, h12]),
        List.take_left' h13]
  · have ha : c1 ++ c2 ++ c3 ++ c4 ++ c5 ++ c6 ++ c7 ++ c8 ++ c9 ++ c10 ++ c11 ++ c12
        ++ dsz ++ payload
        = c1 ++ (c2 ++ (c3 ++ c4 ++ c5 ++ c6 ++ c7 ++ c8 ++ c9 ++ c10 ++ c11 ++ c12
          ++ dsz ++ payload)) := by
      simp [List.append_assoc]
    rw [ha, List.drop_left' h1, List.take_left' h2]

/-- C4 as amended: for every payload and valid params whose header
fields each fit the range of their own header slot (the two 16-bit
fields BitsPerSample and BlockAlign within 16-bit range, the 32-bit
fields within 32-bit range), the encoder succeeds, the output has length
`44 + len(payload)`, the 4 little-endian bytes at offset 40 decode to
`len(payload)`, and the 4 little-endian bytes at offset 4 decode to
`36 + len(payload)`. -/
theorem wav_encode_header_fields (payload : List Nat) (b r : Int)
    (h1 : 0 < b) (h2 : b % 8 = 0) (h3 : b < 65536) (h4 : 0 < r)
    (h5 : r * (b / 8) < 4294967296)
    (h6 : (payload.length : Int) + 36 < 4294967296) :
    ∃ out, wavEncode payload ⟨b, r⟩ = some out
      ∧ out.length = 44 + payload.length
      ∧ leDecode ((out.drop 40).take 4) = payload.length
      ∧ leDecode ((out.drop 4).take 4) = 36 + payload.length := by
  have he : 1 ≤ b / 8 := by omega
  have hr1 : r < 4294967296 :=
    calc r = r * 1 := (mul_one r).symm
    _ ≤ r * (b / 8) := mul_le_mul_of_nonneg_left he (le_of_lt h4)
    _ < 4294967296 := h5
  have henc := wavEncode_eq payload b r (le_of_lt h1) h3 (le_of_lt h4) hr1 h5 h6
  have hoff := wav_offsets [82, 73, 70, 70] (le4 (36 + payload.length))
    [87, 65, 86, 69] [102, 109, 116, 32] [16, 0, 0, 0] [1, 0] (le2 1)
    (le4 r.toNat) (le4 (r * (b / 8)).toNat) (le2 (b / 8).toNat) (le2 b.toNat)
    [100, 97, 116, 97] (le4 payload.length) payload
    rfl rfl rfl rfl rfl rfl rfl rfl rfl rfl rfl rfl rfl
  refine ⟨_, henc, wavEncode_length henc, ?_, ?_⟩
  · rw [hoff.1, leDecode_le4 (by omega)]
  · rw [hoff.2, leDecode_le4 (by omega)]

/-- Closed instance of `wav_encode_header_fields` at a 2-byte payload
with bits 16 and rate 24000. -/
theorem wav_encode_header_fields_witness :
    ∃ out, wavEncode [5, 6] ⟨16, 24000⟩ = some out
      ∧ out.length = 44 + List.length [5, 6]
      ∧ leDecode ((out.drop 40).take 4) = List.length [5, 6]
      ∧ leDecode ((out.drop 4).take 4) = 36 + List.length [5, 6] :=
  wav_encode_header_fields [5, 6] 16 24000 (by decide) (by decide) (by decide)
    (by decide) (by decide) (by decide)

/-- C6 as amended: `convert_to_wav` is pure and total on every payload
and parse-producible params whose derived header fields are within the
ranges of their `struct` format fields; outside those ranges Python
raises `struct.error` (see the counterexample), so the restriction is
necessary. -/
theorem convert_to_wav_inrange_total (payload : List Nat) (m : List Char) (b r : Int)
    (hp : parse_audio_mime_type m = ⟨b, r⟩)
    (hb0 : 0 ≤ b) (hb1 : b < 65536) (hr0 : 0 ≤ r) (hr1 : r < 4294967296)
    (hbr : r * (b / 8) < 4294967296)
    (hlen : (payload.length : Int) + 36 < 4294967296) :
    ∃ w, convert_to_wav payload m = some w := by
  have hc : convert_to_wav payload m = wavEncode payload ⟨b, r⟩ := by
    unfold convert_to_wav
    rw [hp]
  rw [hc]
  exact ⟨_, wavEncode_eq payload b r hb0 hb1 hr0 hr1 hbr hlen⟩

/-- Closed instance of `convert_to_wav_inrange_total` at the descriptor
`audio/L16;rate=24000` and a 1-byte payload. -/
theorem convert_to_wav_inrange_total_witness :
    ∃ w, convert_to_wav [0] "audio/L16;rate=24000".data = some w :=
  convert_to_wav_inrange_total [0] "audio/L16;rate=24000".data 16 24000
    (by decide) (by decide) (by decide) (by decide) (by decide) (by decide)
    (by decide)

theorem processChunk_skippable (acc : List Nat) (c : Genai.Chunk)
    (h : isSkippable c = true) : processChunk acc c = some acc := by
  unfold isSkippable at h
  unfold processChunk
  rcases c with ⟨_ | cands⟩
  · rfl
  · rcases cands with _ | ⟨cand, crest⟩
    · exact absurd h (by simp)
    · rcases cand with ⟨_ | content⟩
      · rfl
      · rcases content with ⟨_ | parts⟩
        · rfl
        · rcases parts with _ | ⟨part, prest⟩
          · exact absurd h (by simp)
          · rcases part with ⟨_ | idata⟩
            · rfl
            · simp only [partHasAudio, Bool.not_not] at h
              simp [h]

theorem processChunk_inline (acc : List Nat) (i : Genai.InlineData) (o : Option (List Nat))
    (hne : i.data.isEmpty = false) (hg : guess_extension i.mime_type = none)
    (hw : convert_to_wav i.data i.mime_type = o) :
    processChunk acc (⟨some [⟨some ⟨some [⟨some i⟩]⟩⟩]⟩ : Genai.Chunk)
      = o.map (fun w => acc ++ w) := by
  show (if i.data.isEmpty then some acc
        else match guess_extension i.mime_type with
             | some _ => some (acc ++ i.data)
             | none =>
               match convert_to_wav i.data i.mime_type with
               | some wav => some (acc ++ wav)
               | none => none)
      = o.map (fun w => acc ++ w)
  rw [hne, hg, hw]
  cases o with
  | none => rfl
  | some w => rfl

theorem processChunk_raw (acc P : List Nat) (m : List Char) (w : List Nat)
    (hP : P ≠ []) (hg : guess_extension m = none)
    (hw : convert_to_wav P m = some w) :
    processChunk acc (mkRawChunk P m) = some (acc ++ w) :=
  processChunk_inline acc ⟨P, m⟩ (some w)
    (by simp [List.isEmpty_iff, hP]) hg hw

theorem processChunk_raw_none (acc P : List Nat) (m : List Char)
    (hP : P ≠ []) (hg : guess_extension m = none)
    (hw : convert_to_wav P m = none) :
    processChunk acc (mkRawChunk P m) = none :=
  processChunk_inline acc ⟨P, m⟩ none
    (by simp [List.isEmpty_iff, hP]) hg hw

/-- C1: over two raw-PCM chunks whose MIME types resolve to no file
extension, the loop appends `convert_to_wav(P1, m1)` then
`convert_to_wav(P2, m2)`: each chunk gets its own 44-byte header sized to
its own payload, and no single header covers both payloads. -/
theorem assemble_two_raw_chunks (P1 P2 w1 w2 : List Nat) (m1 m2 : List Char)
    (hP1 : P1 ≠ []) (hP2 : P2 ≠ [])
    (hg1 : guess_extension m1 = none) (hg2 : guess_extension m2 = none)
    (hw1 : convert_to_wav P1 m1 = some w1) (hw2 : convert_to_wav P2 m2 = some w2) :
    assembleChunks [mkRawChunk P1 m1, mkRawChunk P2 m2] = some (w1 ++ w2)
    ∧ w1.length = 44 + P1.length ∧ w2.length = 44 + P2.length := by
  have hl1 : w1.length = 44 + P1.length := wavEncode_length hw1
  have hl2 : w2.length = 44 + P2.length := wavEncode_length hw2
  refine ⟨?_, hl1, hl2⟩
  have e1 := processChunk_raw [] P1 m1 w1 hP1 hg1 hw1
  have e2 := processChunk_raw ([] ++ w1) P2 m2 w2 hP2 hg2 hw2
  show assembleGo [] [mkRawChunk P1 m1, mkRawChunk P2 m2] = some (w1 ++ w2)
  simp only [assembleGo]
  rw [e1]
  dsimp only
  rw [e2]
  simp

/-- Closed instance of `assemble_two_raw_chunks` at two raw 8-bit chunks
with descriptor `audio/L8;rate=1`. -/
theorem assemble_two_raw_chunks_witness :
    assembleChunks [mkRawChunk [1] "audio/L8;rate=1".data,
                    mkRawChunk [2, 3] "audio/L8;rate=1".data]
      = some (((convert_to_wav [1] "audio/L8;rate=1".data).getD [])
              ++ ((convert_to_wav [2, 3] "audio/L8;rate=1".data).getD []))
    ∧ ((convert_to_wav [1] "audio/L8;rate=1".data).getD []).length
        = 44 + List.length [1]
    ∧ ((convert_to_wav [2, 3] "audio/L8;rate=1".data).getD []).length
        = 44 + List.length [2, 3] :=
  assemble_two_raw_chunks [1] [2, 3] _ _ _ _ (by decide) (by decide)
    (by decide) (by decide) (by decide) (by decide)

/-- C8: the loop silently skips a chunk carrying no usable audio payload
and then wraps a raw-PCM chunk with descriptor `audio/L16;rate=24000`,
accumulating exactly `convert_to_wav(P, audio/L16;rate=24000)`, i.e.
`encode(P, (16, 24000))`; over an empty chunk sequence the accumulated
output is the empty byte sequence. -/
theorem assemble_skip_then_raw (s : Genai.Chunk) (P : List Nat)
    (hs : isSkippable s = true) (hP : P ≠ []) :
    assembleChunks [s, mkRawChunk P "audio/L16;rate=24000".data]
      = wavEncode P ⟨16, 24000⟩
    ∧ assembleChunks [] = some [] := by
  refine ⟨?_, rfl⟩
  have hconv : convert_to_wav P "audio/L16;rate=24000".data
      = wavEncode P ⟨16, 24000⟩ := by
    unfold convert_to_wav
    rw [show parse_audio_mime_type "audio/L16;rate=24000".data = ⟨16, 24000⟩ from by decide]
  have hg : guess_extension "audio/L16;rate=24000".data = none := by decide
  show assembleGo [] [s, mkRawChunk P "audio/L16;rate=24000".data]
      = wavEncode P ⟨16, 24000⟩
  simp only [assembleGo, processChunk_skippable [] s hs]
  cases hw : wavEncode P ⟨16, 24000⟩ with
  | none => rw [processChunk_raw_none [] P _ hP hg (hconv.trans hw)]
  | some w =>
    rw [processChunk_raw [] P _ w hP hg (hconv.trans hw)]
    simp

/-- Closed instance of `assemble_skip_then_raw` with a metadata-only
chunk (candidates `None`) followed by a one-byte raw chunk. -/
theorem assemble_skip_then_raw_witness :
    assembleChunks [(⟨none⟩ : Genai.Chunk), mkRawChunk [7] "audio/L16;rate=24000".data]
      = wavEncode [7] ⟨16, 24000⟩
    ∧ assembleChunks [] = some [] :=
  assemble_skip_then_raw ⟨none⟩ [7] rfl (by decide)

/-- C10: the loop inspects only the first element of a chunk parts list:
processing a chunk whose parts are `p :: rest` is identical to processing
the chunk with parts `[p]` alone, and when the first part has no inline
audio data the chunk contributes nothing, whatever audio the later parts
carry. -/
theorem only_first_part_inspected (acc : List Nat) (p : Genai.Part)
    (rest : List Genai.Part) :
    processChunk acc (mkPartsChunk (p :: rest)) = processChunk acc (mkPartsChunk [p])
    ∧ (partHasAudio p = false → processChunk acc (mkPartsChunk (p :: rest)) = some acc) := by
  constructor
  · rfl
  · intro h
    unfold processChunk mkPartsChunk
    dsimp only
    rcases p with ⟨_ | idata⟩
    · rfl
    · have h2 : idata.data.isEmpty = true := by simpa [partHasAudio] using h
      show (if idata.data.isEmpty then some acc
            else match guess_extension idata.mime_type with
                 | some _ => some (acc ++ idata.data)
                 | none =>
                   match convert_to_wav idata.data idata.mime_type with
                   | some wav => some (acc ++ wav)
                   | none => none)
          = some acc
      rw [h2]
      rfl

/-- Closed instance of `only_first_part_inspected`: a chunk whose first
part has no inline data and whose second part carries audio contributes
nothing to the accumulator. -/
theorem only_first_part_inspected_witness :
    processChunk [] (mkPartsChunk [⟨none⟩, ⟨some ⟨[9, 9], "audio/mpeg".data⟩⟩]) = some []
    ∧ processChunk [] (mkPartsChunk [⟨none⟩, ⟨some ⟨[9, 9], "audio/mpeg".data⟩⟩])
      = processChunk [] (mkPartsChunk [⟨none⟩]) :=
  ⟨(only_first_part_inspected [] ⟨none⟩ [⟨some ⟨[9, 9], "audio/mpeg".data⟩⟩]).2 rfl,
   (only_first_part_inspected [] ⟨none⟩ [⟨some ⟨[9, 9], "audio/mpeg".data⟩⟩]).1⟩

theorem runChunks_append {ε : Type} (s : List (Except ε Genai.Chunk)) :
    ∀ (pre : List (Except ε Genai.Chunk)) (a acc : List Nat),
      runChunks a pre = .ok acc → runChunks a (pre ++ s) = runChunks acc s := by
  intro pre
  induction pre with
  | nil =>
    intro a acc h
    rw [List.nil_append]
    rw [runChunks] at h
    injection h with h2
    rw [h2]
  | cons e erest ih =>
    intro a acc h
    cases e with
    | error err =>
      rw [runChunks] at h
      exact absurd h (by simp)
    | ok c =>
      rw [List.cons_append, runChunks]
      rw [runChunks] at h
      cases hp : processChunk a c with
      | none =>
        rw [hp] at h
        exact absurd h (by simp)
      | some a2 =>
        rw [hp] at h
        dsimp only at h ⊢
        exact ih a2 acc h

/-- C9: if the upstream chunk stream raises after a successfully
processed prelude, `generate_podcast_audio` deletes the temporary output
file and propagates the error, so no partial output is returned. -/
theorem upstream_failure_cleanup {ε : Type} (pre rest : List (Except ε Genai.Chunk))
    (e : ε) (acc : List Nat) (h : runChunks [] pre = .ok acc) :
    generate_podcast_audio (pre ++ .error e :: rest)
      = (.error (.upstream e), false) := by
  unfold generate_podcast_audio
  rw [runChunks_append _ pre [] acc h]
  rfl

/-- Closed instance of `upstream_failure_cleanup`: one skipped chunk
followed by an upstream exception. -/
theorem upstream_failure_cleanup_witness :
    generate_podcast_audio [Except.ok (⟨none⟩ : Genai.Chunk), Except.error "boom"]
      = (Except.error (StreamErr.upstream "boom"), false) :=
  upstream_failure_cleanup [Except.ok ⟨none⟩] [] "boom" [] rfl
